import Mathlib

/-!
Verification of the derived-state computation engine of the
opstacktracker repository: status roll-up, device aggregation,
hierarchy aggregation walker, seed flattener and import reconciler,
each embedded shallowly from the TypeScript source.
-/

set_option autoImplicit false

namespace OpStack

/-! ## Enums (src/domain/node.schema.ts) -/

/-- `NodeType` — the five hierarchy levels (z.enum in node.schema.ts). -/
inductive NodeType where
  | organisation
  | directorate
  | department
  | subdepartment
  | cohort
deriving DecidableEq, Repr

/-- `Status` — the RAGB status model (z.enum in node.schema.ts). -/
inductive Status where
  | red
  | amber
  | green
  | blue
deriving DecidableEq, Repr

/-- `DeviceType` — cohort-specific device category (z.enum in node.schema.ts). -/
inductive DeviceType where
  | laptop
  | sharedDesktop
  | kiosk
  | displayUnit
deriving DecidableEq, Repr

instance : BEq Status := ⟨fun a b => decide (a = b)⟩
instance : BEq NodeType := ⟨fun a b => decide (a = b)⟩

theorem beq_status_eq (a b : Status) : (a == b) = decide (a = b) := rfl

theorem beq_nodeType_eq (a b : NodeType) : (a == b) = decide (a = b) := rfl

/-! ## Status Roll-up Engine (src, status-calculator: `calculateStatus`) -/

/-- `STATUS_PRIORITY` — red=0, amber=1, green=2, blue=3 (worst to best). -/
def STATUS_PRIORITY : Status → Nat
  | Status.red => 0
  | Status.amber => 1
  | Status.green => 2
  | Status.blue => 3

/-- `getWorstStatus(a, b)` — the status with the lower priority number. -/
def getWorstStatus (a b : Status) : Status :=
  if STATUS_PRIORITY a < STATUS_PRIORITY b then a else b

/-- `calculateStatus(childStatuses, fallback = red)` — empty list returns the
fallback; else red if any red; else amber if any amber; else blue if all
blue; else green.  Translated clause by clause from the source. -/
def calculateStatus (childStatuses : List Status)
    (fallback : Status := Status.red) : Status :=
  if childStatuses.length = 0 then
    fallback
  else if childStatuses.any (fun status => status == Status.red) then
    Status.red
  else if childStatuses.any (fun status => status == Status.amber) then
    Status.amber
  else if childStatuses.all (fun status => status == Status.blue) then
    Status.blue
  else
    Status.green

/-- The claim's description of the roll-up as a case split, written from the
spec's words, to compare against the source translation. -/
def statusSpecRule (childStatuses : List Status) (fallback : Status) : Status :=
  if childStatuses = [] then fallback
  else if Status.red ∈ childStatuses then Status.red
  else if Status.amber ∈ childStatuses then Status.amber
  else if ∀ s ∈ childStatuses, s = Status.blue then Status.blue
  else Status.green

/-! ## Device Aggregator (src/domain/device-aggregator.ts) -/

/-- `DeviceCounts` — a pair of possibly-null counts. -/
structure DeviceCounts where
  deviceCount : Option Int
  completedCount : Option Int
deriving DecidableEq, Repr

/-- `AggregatedDeviceCounts` — the aggregation result. -/
structure AggregatedDeviceCounts where
  totalDevices : Int
  totalCompleted : Int
deriving DecidableEq, Repr

/-- `aggregateDeviceCounts(cohorts)` — two independent reduces summing
`deviceCount ?? 0` and `completedCount ?? 0`. -/
def aggregateDeviceCounts (cohorts : List DeviceCounts) : AggregatedDeviceCounts :=
  { totalDevices :=
      cohorts.foldl (fun sum cohort => sum + (cohort.deviceCount.getD 0)) 0
    totalCompleted :=
      cohorts.foldl (fun sum cohort => sum + (cohort.completedCount.getD 0)) 0 }

/-- `Math.round` of JavaScript on an exact rational: `⌊x + 1/2⌋`
(round half toward positive infinity). -/
def jsRound (x : ℚ) : ℤ := ⌊x + 1 / 2⌋

/-- `calculateCompletionPercentage(completed, total)` — 0 when `total === 0`,
else `Math.min(Math.round((completed / total) * 100), 100)`; number
arithmetic modelled exactly over ℚ. -/
def calculateCompletionPercentage (completed total : ℚ) : ℤ :=
  if total = 0 then 0
  else min (jsRound ((completed / total) * 100)) 100

/-- The claim's description: `round(100 * completed / total)`, 0 when
`total = 0`, clamped to a maximum of 100; written from the spec's words. -/
def percentageSpecRule (completed total : ℕ) : ℤ :=
  if total = 0 then 0
  else min (round ((100 * completed : ℚ) / total)) 100

/-- Reinterpretation of an aggregation result as an input pair:
`totalDevices` read as `deviceCount`, `totalCompleted` as `completedCount`. -/
def asDeviceCounts (r : AggregatedDeviceCounts) : DeviceCounts :=
  { deviceCount := some r.totalDevices, completedCount := some r.totalCompleted }

/-- C3: `calculateStatus` returns the fallback on the empty sequence and
otherwise red if any red, else amber if any amber, else blue if all blue,
else green. -/
theorem calculateStatus_rule (ss : List Status) (fb : Status) :
    calculateStatus ss fb = statusSpecRule ss fb := by
  simp only [calculateStatus, statusSpecRule, List.length_eq_zero,
    List.any_eq_true, List.all_eq_true, beq_status_eq, decide_eq_true_eq]
  simp only [exists_eq_right]

/-- C7: completion percentage is 0 at total = 0, otherwise
round(100·completed/total) capped at 100; 100 at (x,x) for x > 0,
0 at (0,0), 33 at (1,3), 67 at (2,3). -/
theorem calculateCompletionPercentage_rule :
    (∀ c t : ℕ, calculateCompletionPercentage c t = percentageSpecRule c t)
    ∧ (∀ x : ℕ, 0 < x → calculateCompletionPercentage x x = 100)
    ∧ calculateCompletionPercentage 0 0 = 0
    ∧ calculateCompletionPercentage 1 3 = 33
    ∧ calculateCompletionPercentage 2 3 = 67 := by
  refine ⟨?_, ?_, by norm_num [calculateCompletionPercentage],
    by norm_num [calculateCompletionPercentage, jsRound],
    by norm_num [calculateCompletionPercentage, jsRound]⟩
  · intro c t
    unfold calculateCompletionPercentage percentageSpecRule jsRound
    by_cases ht : t = 0
    · simp [ht]
    · have ht' : (t : ℚ) ≠ 0 := by exact_mod_cast ht
      rw [if_neg ht, if_neg (by exact_mod_cast ht), round_eq]
      congr 2
      ring
  · intro x hx
    have hx' : (x : ℚ) ≠ 0 := by
      exact_mod_cast Nat.pos_iff_ne_zero.mp hx
    unfold calculateCompletionPercentage jsRound
    rw [if_neg hx', div_self hx']
    norm_num

/-- C7 witness: the (x,x) clause at x = 5. -/
theorem calculateCompletionPercentage_rule_witness :
    calculateCompletionPercentage 5 5 = 100 :=
  calculateCompletionPercentage_rule.2.1 5 (by decide)

/-- C8: `aggregateDeviceCounts` is associative — aggregating [a,b,c] equals
aggregating [aggregate [a,b] (reinterpreted as a pair), c]. -/
theorem aggregateDeviceCounts_assoc (a b c : DeviceCounts) :
    aggregateDeviceCounts [a, b, c]
      = aggregateDeviceCounts [asDeviceCounts (aggregateDeviceCounts [a, b]), c] := by
  simp only [aggregateDeviceCounts, asDeviceCounts, List.foldl_cons, List.foldl_nil,
    Option.getD_some, AggregatedDeviceCounts.mk.injEq]
  constructor <;> ring

/-! ## Hierarchy Aggregation Walker
(`calculateAggregatedCounts` in OrgChart.tsx / HierarchyTree.tsx; the two
copies are textually identical) -/

/-- The domain `Node` (node.schema.ts `BaseNodeSchema`), restricted to the
fields the derived-state engine reads; all optional fields are `Option`. -/
structure Node where
  id : Option String := none
  type : NodeType
  name : String := ""
  parentId : Option String := none
  status : Status := Status.red
  contact : Option String := none
  additionalContacts : List String := []
  headcount : Option Int := none
  deviceType : Option DeviceType := none
  deviceCount : Option Int := none
  completedCount : Option Int := none
deriving DecidableEq, Repr

/-- JavaScript falsiness of a node id (`!node.id`): absent or empty string. -/
def idFalsy : Option String → Bool
  | none => true
  | some s => s == ""

/-- The string under a non-falsy id (`node.id!`). -/
def getId (o : Option String) : String := o.getD ""

instance : BEq Node := ⟨fun a b => decide (a = b)⟩

/-- The `childrenMap` lookup: direct children of a parent key, in input
order.  The source builds a `Map` by appending each node to the bucket of
its `parentId ?? null`; reading one bucket of that map equals filtering the
input list by parent key, order preserved. -/
def childrenOf (nodes : List Node) (pid : Option String) : List Node :=
  nodes.filter (fun n => n.parentId == pid)

/-- `AggregatedCounts` of the org chart components. -/
structure AggregatedCounts where
  deviceCount : Int
  completedCount : Int
deriving DecidableEq, Repr

/-- The walker's `result` map: an association list, newest entry first. -/
abbrev Memo := List (String × AggregatedCounts)

/-- `result.get(nodeId)`. -/
def lookupMemo (m : Memo) (k : String) : Option AggregatedCounts :=
  (m.find? (fun p => p.1 == k)).map Prod.snd

/-- `result.set(nodeId, counts)`. -/
def insertMemo (m : Memo) (k : String) (v : AggregatedCounts) : Memo :=
  (k, v) :: m

/-- The `for (const child of children)` loop body of `aggregate`: skip falsy
ids, add a cohort child's own counts, recurse into a non-cohort child via
`rec` (the aggregate call one budget level down). -/
def aggChildrenGo (rec : Memo → String → Option (AggregatedCounts × Memo)) :
    Memo → List Node → Int → Int → Option (Int × Int × Memo)
  | memo, [], d, c => some (d, c, memo)
  | memo, child :: rest, d, c =>
    if idFalsy child.id then aggChildrenGo rec memo rest d c
    else if child.type == NodeType.cohort then
      aggChildrenGo rec memo rest
        (d + child.deviceCount.getD 0) (c + child.completedCount.getD 0)
    else
      match rec memo (getId child.id) with
      | none => none
      | some (cc, memo') =>
        aggChildrenGo rec memo' rest
          (d + cc.deviceCount) (c + cc.completedCount)

/-- The inner `aggregate(nodeId)` closure of `calculateAggregatedCounts`,
with an explicit recursion budget threaded through: `none` means the budget
ran out.  The source has no budget and no cycle handling — on inputs where
every budget runs out the source recurses without bound. -/
def aggregateF (nodes : List Node) : Nat → Memo → String → Option (AggregatedCounts × Memo)
  | fuel, memo, nodeId =>
    match lookupMemo memo nodeId with
    | some c => some (c, memo)
    | none =>
      match fuel with
      | 0 => none
      | f + 1 =>
        match aggChildrenGo (aggregateF nodes f) memo
            (childrenOf nodes (some nodeId)) 0 0 with
        | none => none
        | some (d, c, memo') =>
          some (⟨d, c⟩, insertMemo memo' nodeId ⟨d, c⟩)

/-- The top-level `for (const node of nodes) if (node.id) aggregate(node.id)`
loop of `calculateAggregatedCounts`. -/
def calcLoop (nodes : List Node) (fuel : Nat) :
    Memo → List Node → Option Memo
  | memo, [] => some memo
  | memo, n :: rest =>
    if idFalsy n.id then calcLoop nodes fuel memo rest
    else
      match aggregateF nodes fuel memo (getId n.id) with
      | none => none
      | some (_, memo') => calcLoop nodes fuel memo' rest

/-- `calculateAggregatedCounts(nodes, childrenMap)` under a recursion
budget: `none` exactly when the budget ran out somewhere. -/
def calculateAggregatedCounts (nodes : List Node) (fuel : Nat) : Option Memo :=
  calcLoop nodes fuel [] nodes

/-! ### Memo table lemmas -/

theorem lookupMemo_insert (m : Memo) (k k' : String) (v : AggregatedCounts) :
    lookupMemo (insertMemo m k v) k' =
      if k = k' then some v else lookupMemo m k' := by
  simp only [lookupMemo, insertMemo, List.find?_cons]
  by_cases h : k = k'
  · simp [h]
  · have hb : (k == k') = false := by simp [h]
    simp [hb, h]

/-! ### C2: divergence of the walker on cyclic parent links -/

/-- A cyclic core: a set of ids each of which has a direct child in `nodes`
that is non-cohort, has a usable id, and whose id is again in the set.  A
finite node set whose parent links form a cycle of non-cohort nodes has one
(the ids on the cycle). -/
def CyclicCore (nodes : List Node) (core : List String) : Prop :=
  ∀ s ∈ core, ∃ n ∈ nodes, n.parentId = some s ∧ n.type ≠ NodeType.cohort
    ∧ idFalsy n.id = false ∧ getId n.id ∈ core

/-- No memo entry for any core id. -/
def coreFree (core : List String) (memo : Memo) : Prop :=
  ∀ s ∈ core, lookupMemo memo s = none

/-- The walker never terminates on `nodes`: every recursion budget runs
out.  This is how unbounded recursion of the budget-free source shows up in
the budgeted embedding. -/
def aggDivergesOn (nodes : List Node) : Prop :=
  ∀ fuel, calculateAggregatedCounts nodes fuel = none

theorem aggChildrenGo_coreFree (core : List String)
    (rec : Memo → String → Option (AggregatedCounts × Memo))
    (hrecP : ∀ memo id r, coreFree core memo → rec memo id = some r →
      coreFree core r.2) :
    ∀ chs memo d c r, coreFree core memo →
      aggChildrenGo rec memo chs d c = some r → coreFree core r.2.2 := by
  intro chs
  induction chs with
  | nil =>
    intro memo d c r hfree h
    simp only [aggChildrenGo] at h
    cases h
    exact hfree
  | cons child rest ih =>
    intro memo d c r hfree h
    simp only [aggChildrenGo] at h
    by_cases hf : idFalsy child.id
    · rw [if_pos hf] at h
      exact ih memo d c r hfree h
    · rw [if_neg hf] at h
      by_cases hc : child.type == NodeType.cohort
      · rw [if_pos hc] at h
        exact ih memo _ _ r hfree h
      · rw [if_neg hc] at h
        cases hrec : rec memo (getId child.id) with
        | none => rw [hrec] at h; cases h
        | some p =>
          rw [hrec] at h
          exact ih p.2 _ _ r (hrecP memo _ p hfree hrec) h

theorem aggChildrenGo_hits_core (core : List String)
    (rec : Memo → String → Option (AggregatedCounts × Memo))
    (hrecP : ∀ memo id r, coreFree core memo → rec memo id = some r →
      coreFree core r.2)
    (hrecQ : ∀ memo s, coreFree core memo → s ∈ core → rec memo s = none) :
    ∀ chs memo d c, coreFree core memo →
      (∃ ch ∈ chs, idFalsy ch.id = false ∧ ch.type ≠ NodeType.cohort ∧
        getId ch.id ∈ core) →
      aggChildrenGo rec memo chs d c = none := by
  intro chs
  induction chs with
  | nil =>
    intro memo d c _ hwit
    obtain ⟨ch, hch, _⟩ := hwit
    cases hch
  | cons child rest ih =>
    intro memo d c hfree hwit
    by_cases hhit : idFalsy child.id = false ∧ child.type ≠ NodeType.cohort ∧
        getId child.id ∈ core
    · obtain ⟨h1, h2, h3⟩ := hhit
      simp only [aggChildrenGo]
      rw [if_neg (by simp [h1]), if_neg (by simp [h2])]
      rw [hrecQ memo (getId child.id) hfree h3]
    · have hwit' : ∃ ch ∈ rest, idFalsy ch.id = false ∧
          ch.type ≠ NodeType.cohort ∧ getId ch.id ∈ core := by
        obtain ⟨ch, hch, hp⟩ := hwit
        rcases List.mem_cons.mp hch with rfl | hmem
        · exact absurd hp hhit
        · exact ⟨ch, hmem, hp⟩
      simp only [aggChildrenGo]
      by_cases hf : idFalsy child.id
      · rw [if_pos hf]
        exact ih memo d c hfree hwit'
      · rw [if_neg hf]
        by_cases hc : child.type == NodeType.cohort
        · rw [if_pos hc]
          exact ih memo _ _ hfree hwit'
        · rw [if_neg hc]
          cases hrec : rec memo (getId child.id) with
          | none => rfl
          | some p =>
            exact ih p.2 _ _ (hrecP memo _ p hfree hrec) hwit'

/-- At every budget, aggregation from a core id runs out (first clause) and
a successful aggregation started core-free leaves the core unmemoised
(second clause). -/
theorem aggregateF_core (nodes : List Node) (core : List String)
    (hcore : CyclicCore nodes core) :
    ∀ fuel : Nat,
      (∀ memo s, coreFree core memo → s ∈ core →
        aggregateF nodes fuel memo s = none)
      ∧ (∀ memo id r, coreFree core memo →
        aggregateF nodes fuel memo id = some r → coreFree core r.2) := by
  intro fuel
  induction fuel with
  | zero =>
    constructor
    · intro memo s hfree hs
      simp only [aggregateF]
      rw [hfree s hs]
    · intro memo id r hfree h
      simp only [aggregateF] at h
      cases hlk : lookupMemo memo id with
      | none => rw [hlk] at h; cases h
      | some c =>
        rw [hlk] at h
        cases h
        exact hfree
  | succ f ihf =>
    have hQ : ∀ memo s, coreFree core memo → s ∈ core →
        aggregateF nodes (f + 1) memo s = none := by
      intro memo s hfree hs
      simp only [aggregateF]
      rw [hfree s hs]
      obtain ⟨n, hn, hpar, htype, hok, hid⟩ := hcore s hs
      have hchild : n ∈ childrenOf nodes (some s) := by
        simp [childrenOf, List.mem_filter, hn, hpar]
      rw [aggChildrenGo_hits_core core (aggregateF nodes f) ihf.2 ihf.1
        (childrenOf nodes (some s)) memo 0 0 hfree
        ⟨n, hchild, hok, htype, hid⟩]
    refine ⟨hQ, ?_⟩
    intro memo id r hfree h
    simp only [aggregateF] at h
    cases hlk : lookupMemo memo id with
    | some c =>
      rw [hlk] at h
      cases h
      exact hfree
    | none =>
      rw [hlk] at h
      cases hloop : aggChildrenGo (aggregateF nodes f) memo
          (childrenOf nodes (some id)) 0 0 with
      | none => rw [hloop] at h; cases h
      | some p =>
        rw [hloop] at h
        cases h
        have hfree' : coreFree core p.2.2 :=
          aggChildrenGo_coreFree core (aggregateF nodes f) ihf.2
            (childrenOf nodes (some id)) memo 0 0 p hfree hloop
        intro s hs
        rw [lookupMemo_insert]
        have hid_ne : id ≠ s := by
          intro hids
          subst hids
          have := hQ memo id hfree hs
          simp only [aggregateF] at this
          rw [hlk, hloop] at this
          cases this
        rw [if_neg hid_ne]
        exact hfree' s hs

theorem calcLoop_cycle_none (nodes : List Node) (core : List String)
    (hcore : CyclicCore nodes core) (fuel : Nat) :
    ∀ ns memo, coreFree core memo →
      (∃ n ∈ ns, idFalsy n.id = false ∧ getId n.id ∈ core) →
      calcLoop nodes fuel memo ns = none := by
  intro ns
  induction ns with
  | nil =>
    intro memo _ hwit
    obtain ⟨n, hn, _⟩ := hwit
    cases hn
  | cons n rest ih =>
    intro memo hfree hwit
    by_cases hhit : idFalsy n.id = false ∧ getId n.id ∈ core
    · simp only [calcLoop]
      rw [if_neg (by simp [hhit.1])]
      rw [(aggregateF_core nodes core hcore fuel).1 memo (getId n.id) hfree hhit.2]
    · have hwit' : ∃ m ∈ rest, idFalsy m.id = false ∧ getId m.id ∈ core := by
        obtain ⟨m, hm, hp⟩ := hwit
        rcases List.mem_cons.mp hm with rfl | hmem
        · exact absurd hp hhit
        · exact ⟨m, hmem, hp⟩
      simp only [calcLoop]
      by_cases hf : idFalsy n.id
      · rw [if_pos hf]
        exact ih memo hfree hwit'
      · rw [if_neg hf]
        cases hrec : aggregateF nodes fuel memo (getId n.id) with
        | none => rfl
        | some p =>
          exact ih p.2 ((aggregateF_core nodes core hcore fuel).2 memo _ p hfree hrec) hwit'

/-- On any node set with a cyclic core, the walker exhausts every budget. -/
theorem cyclicCore_diverges (nodes : List Node) (core : List String)
    (s : String) (hcore : CyclicCore nodes core) (hs : s ∈ core) :
    aggDivergesOn nodes := by
  intro fuel
  obtain ⟨n, hn, _, _, hok, hid⟩ := hcore s hs
  exact calcLoop_cycle_none nodes core hcore fuel nodes []
    (fun _ _ => rfl) ⟨n, hn, hok, hid⟩

/-! ### Concrete node sets -/

/-- A two-node parent cycle: each node is the other's child. -/
def cycA : Node := { id := some "a", type := NodeType.directorate, parentId := some "b" }

/-- Second member of the two-node cycle. -/
def cycB : Node := { id := some "b", type := NodeType.department, parentId := some "a" }

/-- The cyclic node set used against C2. -/
def cycNodes : List Node := [cycA, cycB]

/-- A single cohort node with its own device counts (10, 4). -/
def soloCohort : Node :=
  { id := some "c1", type := NodeType.cohort, parentId := none,
    deviceCount := some 10, completedCount := some 4 }

/-- C2 (amended): the walker has no cycle detection and raises no
CycleDetected error; on a node set with a cyclic core of non-cohort nodes it
recurses indefinitely — every recursion budget is exhausted, for every
budget, so the call never produces a result. -/
theorem calculateAggregatedCounts_cycle_no_detection
    (nodes : List Node) (core : List String) (s : String)
    (hcore : CyclicCore nodes core) (hs : s ∈ core) :
    aggDivergesOn nodes :=
  cyclicCore_diverges nodes core s hcore hs

/-- C2 witness: the amended theorem applied to the concrete two-node cycle. -/
theorem calculateAggregatedCounts_cycle_no_detection_witness :
    calculateAggregatedCounts cycNodes 97 = none :=
  calculateAggregatedCounts_cycle_no_detection cycNodes ["a", "b"] "a"
    (by unfold CyclicCore; decide) (by decide) 97

/-- C2 counterexample: on the concrete two-node cycle the walker does not
fail fast with a CycleDetected error — it never terminates at all: every
recursion budget runs out. -/
theorem calculateAggregatedCounts_cycle_cex : aggDivergesOn cycNodes :=
  cyclicCore_diverges cycNodes ["a", "b"] "a" (by unfold CyclicCore; decide) (by decide)

/-- C1 counterexample: for the node set consisting of one cohort with
deviceCount 10 and completedCount 4, the aggregation map's entry for the
cohort itself is (0, 0) — the sum over its (absent) children — not its own
(10, 4) as the claim states. -/
theorem calculateAggregatedCounts_cohort_entry_cex :
    ((calculateAggregatedCounts [soloCohort] 1).bind (fun m => lookupMemo m "c1")
        = some { deviceCount := 0, completedCount := 0 })
    ∧ ((calculateAggregatedCounts [soloCohort] 100).bind (fun m => lookupMemo m "c1")
        = some { deviceCount := 0, completedCount := 0 })
    ∧ soloCohort.type = NodeType.cohort
    ∧ soloCohort.id = some "c1"
    ∧ soloCohort.deviceCount.getD 0 = 10
    ∧ soloCohort.completedCount.getD 0 = 4 := by
  refine ⟨by decide, ?_, by decide, by decide, by decide, by decide⟩
  decide

/-! ### C1: the aggregation map satisfies the children-sum recurrence -/

/-- The children contributions of one node read against a memo table, with
the loop's running accumulators: falsy-id children are skipped, cohort
children add their own `deviceCount ?? 0` / `completedCount ?? 0`, and a
non-cohort child adds its recursively computed aggregate — its entry in the
table (`none` when that entry is missing). -/
def sumContrib (memo : Memo) : List Node → Int → Int → Option (Int × Int)
  | [], d, c => some (d, c)
  | child :: rest, d, c =>
    if idFalsy child.id then sumContrib memo rest d c
    else if child.type == NodeType.cohort then
      sumContrib memo rest
        (d + child.deviceCount.getD 0) (c + child.completedCount.getD 0)
    else
      match lookupMemo memo (getId child.id) with
      | none => none
      | some cc => sumContrib memo rest
          (d + cc.deviceCount) (c + cc.completedCount)

/-- `m'` preserves every entry of `m`. -/
def MemoLe (m m' : Memo) : Prop :=
  ∀ k v, lookupMemo m k = some v → lookupMemo m' k = some v

/-- Every entry of the table equals the sum of its key's children
contributions, read against the table itself. -/
def MemoGood (nodes : List Node) (memo : Memo) : Prop :=
  ∀ k v, lookupMemo memo k = some v →
    sumContrib memo (childrenOf nodes (some k)) 0 0
      = some (v.deviceCount, v.completedCount)

theorem sumContrib_mono (m m' : Memo) (hle : MemoLe m m') :
    ∀ chs d c r, sumContrib m chs d c = some r → sumContrib m' chs d c = some r := by
  intro chs
  induction chs with
  | nil => intro d c r h; exact h
  | cons child rest ih =>
    intro d c r h
    simp only [sumContrib] at h ⊢
    by_cases hf : idFalsy child.id
    · rw [if_pos hf] at h ⊢
      exact ih d c r h
    · rw [if_neg hf] at h ⊢
      by_cases hc : child.type == NodeType.cohort
      · rw [if_pos hc] at h ⊢
        exact ih _ _ r h
      · rw [if_neg hc] at h ⊢
        cases hlk : lookupMemo m (getId child.id) with
        | none => rw [hlk] at h; cases h
        | some cc =>
          rw [hlk] at h
          rw [hle _ cc hlk]
          exact ih _ _ r h

theorem aggChildrenGo_sound (nodes : List Node) (rank : String → Nat)
    (rec : Memo → String → Option (AggregatedCounts × Memo)) (R : Nat)
    (hrec : ∀ memo id, MemoGood nodes memo → rank id < R →
      ∃ cm, rec memo id = some cm
        ∧ MemoLe memo cm.2 ∧ MemoGood nodes cm.2
        ∧ lookupMemo cm.2 id = some cm.1
        ∧ (∀ k v, lookupMemo cm.2 k = some v →
            lookupMemo memo k = some v ∨ rank k ≤ rank id)) :
    ∀ chs memo d c, MemoGood nodes memo →
      (∀ ch ∈ chs, idFalsy ch.id = false → ch.type ≠ NodeType.cohort →
        rank (getId ch.id) < R) →
      ∃ dcm, aggChildrenGo rec memo chs d c = some dcm
        ∧ MemoLe memo dcm.2.2 ∧ MemoGood nodes dcm.2.2
        ∧ sumContrib dcm.2.2 chs d c = some (dcm.1, dcm.2.1)
        ∧ (∀ k v, lookupMemo dcm.2.2 k = some v →
            lookupMemo memo k = some v ∨ rank k < R) := by
  intro chs
  induction chs with
  | nil =>
    intro memo d c hgood _
    exact ⟨(d, c, memo), rfl, fun _ _ h => h, hgood, rfl, fun _ _ h => Or.inl h⟩
  | cons child rest ih =>
    intro memo d c hgood hR
    have hRrest : ∀ ch ∈ rest, idFalsy ch.id = false → ch.type ≠ NodeType.cohort →
        rank (getId ch.id) < R :=
      fun ch hch => hR ch (List.mem_cons_of_mem _ hch)
    by_cases hf : idFalsy child.id
    · obtain ⟨dcm, h1, h2, h3, h4, h5⟩ := ih memo d c hgood hRrest
      exact ⟨dcm, by simp only [aggChildrenGo]; rw [if_pos hf]; exact h1, h2, h3,
        by simp only [sumContrib]; rw [if_pos hf]; exact h4, h5⟩
    · by_cases hc : child.type == NodeType.cohort
      · obtain ⟨dcm, h1, h2, h3, h4, h5⟩ := ih memo
          (d + child.deviceCount.getD 0) (c + child.completedCount.getD 0)
          hgood hRrest
        exact ⟨dcm, by simp only [aggChildrenGo]; rw [if_neg hf, if_pos hc]; exact h1,
          h2, h3,
          by simp only [sumContrib]; rw [if_neg hf, if_pos hc]; exact h4, h5⟩
      · have hflt : rank (getId child.id) < R :=
          hR child (List.mem_cons_self _ _) (by simpa using hf)
            (by simpa [beq_nodeType_eq] using hc)
        obtain ⟨cm, hr1, hr2, hr3, hr4, hr5⟩ :=
          hrec memo (getId child.id) hgood hflt
        obtain ⟨cc, cmMemo⟩ := cm
        obtain ⟨dcm, h1, h2, h3, h4, h5⟩ := ih cmMemo
          (d + cc.deviceCount) (c + cc.completedCount) hr3 hRrest
        refine ⟨dcm, ?_, ?_, h3, ?_, ?_⟩
        · simp only [aggChildrenGo]
          rw [if_neg hf, if_neg hc, hr1]
          exact h1
        · exact fun k v hv => h2 k v (hr2 k v hv)
        · simp only [sumContrib]
          rw [if_neg hf, if_neg hc, h2 _ _ hr4]
          exact h4
        · intro k v hv
          rcases h5 k v hv with hv' | hlt
          · rcases hr5 k v hv' with hv'' | hle'
            · exact Or.inl hv''
            · exact Or.inr (lt_of_le_of_lt hle' hflt)
          · exact Or.inr hlt

theorem aggregateF_sound (nodes : List Node) (rank : String → Nat)
    (hrank : ∀ ch ∈ nodes, idFalsy ch.id = false → ch.type ≠ NodeType.cohort →
      ch.parentId = none ∨ rank (getId ch.id) < rank (getId ch.parentId)) :
    ∀ fuel memo id, MemoGood nodes memo → rank id < fuel →
      ∃ cm, aggregateF nodes fuel memo id = some cm
        ∧ MemoLe memo cm.2 ∧ MemoGood nodes cm.2
        ∧ lookupMemo cm.2 id = some cm.1
        ∧ (∀ k v, lookupMemo cm.2 k = some v →
            lookupMemo memo k = some v ∨ rank k ≤ rank id) := by
  intro fuel
  induction fuel with
  | zero => intro memo id _ h; omega
  | succ f ihf =>
    intro memo id hgood hlt
    cases hlk : lookupMemo memo id with
    | some c =>
      exact ⟨(c, memo), by simp only [aggregateF]; rw [hlk], fun _ _ h => h,
        hgood, hlk, fun _ _ h => Or.inl h⟩
    | none =>
      have hchild : ∀ ch ∈ childrenOf nodes (some id),
          idFalsy ch.id = false → ch.type ≠ NodeType.cohort →
          rank (getId ch.id) < rank id := by
        intro ch hch hfok hcoh
        have hmem := List.mem_filter.mp hch
        have hpar : ch.parentId = some id := by
          have := hmem.2
          simpa using this
        rcases hrank ch hmem.1 hfok hcoh with hnone | hless
        · rw [hpar] at hnone; cases hnone
        · rw [hpar] at hless; exact hless
      obtain ⟨dcm, h1, h2, h3, h4, h5⟩ :=
        aggChildrenGo_sound nodes rank (aggregateF nodes f) (rank id)
          (fun memo' id' hgood' hlt' => ihf memo' id' hgood' (by omega))
          (childrenOf nodes (some id)) memo 0 0 hgood hchild
      have hidfresh : lookupMemo dcm.2.2 id = none := by
        cases hlk2 : lookupMemo dcm.2.2 id with
        | none => rfl
        | some v =>
          rcases h5 id v hlk2 with hv | hltv
          · rw [hlk] at hv; cases hv
          · omega
      have hle_ins : MemoLe dcm.2.2
          (insertMemo dcm.2.2 id ⟨dcm.1, dcm.2.1⟩) := by
        intro k v hv
        rw [lookupMemo_insert]
        have : ¬ id = k := by
          intro h; subst h; rw [hidfresh] at hv; cases hv
        rw [if_neg this]
        exact hv
      refine ⟨(⟨dcm.1, dcm.2.1⟩, insertMemo dcm.2.2 id ⟨dcm.1, dcm.2.1⟩), ?_, ?_, ?_, ?_, ?_⟩
      · simp only [aggregateF]
        rw [hlk, h1]
      · exact fun k v hv => hle_ins k v (h2 k v hv)
      · intro k v hv
        rw [lookupMemo_insert] at hv
        by_cases hk : id = k
        · rw [if_pos hk] at hv
          cases hv
          subst hk
          exact sumContrib_mono _ _ hle_ins _ 0 0 _ h4
        · rw [if_neg hk] at hv
          exact sumContrib_mono _ _ hle_ins _ 0 0 _ (h3 k v hv)
      · rw [lookupMemo_insert, if_pos rfl]
      · intro k v hv
        rw [lookupMemo_insert] at hv
        by_cases hk : id = k
        · subst hk
          exact Or.inr (le_refl _)
        · rw [if_neg hk] at hv
          rcases h5 k v hv with hv' | hltv
          · exact Or.inl hv'
          · exact Or.inr (le_of_lt hltv)

theorem calcLoop_sound (nodes : List Node) (rank : String → Nat) (fuel : Nat)
    (hrank : ∀ ch ∈ nodes, idFalsy ch.id = false → ch.type ≠ NodeType.cohort →
      ch.parentId = none ∨ rank (getId ch.id) < rank (getId ch.parentId)) :
    ∀ ns memo, MemoGood nodes memo →
      (∀ n ∈ ns, idFalsy n.id = false → rank (getId n.id) < fuel) →
      ∃ M, calcLoop nodes fuel memo ns = some M
        ∧ MemoLe memo M ∧ MemoGood nodes M
        ∧ ∀ n ∈ ns, idFalsy n.id = false →
            ∃ v, lookupMemo M (getId n.id) = some v := by
  intro ns
  induction ns with
  | nil =>
    intro memo hgood _
    exact ⟨memo, rfl, fun _ _ h => h, hgood, by intro n hn; cases hn⟩
  | cons n rest ih =>
    intro memo hgood hfuel
    have hfrest : ∀ m ∈ rest, idFalsy m.id = false → rank (getId m.id) < fuel :=
      fun m hm => hfuel m (List.mem_cons_of_mem _ hm)
    by_cases hf : idFalsy n.id
    · obtain ⟨M, h1, h2, h3, h4⟩ := ih memo hgood hfrest
      refine ⟨M, by simp only [calcLoop]; rw [if_pos hf]; exact h1, h2, h3, ?_⟩
      intro m hm hmok
      rcases List.mem_cons.mp hm with rfl | hmem
      · rw [hmok] at hf; cases hf
      · exact h4 m hmem hmok
    · obtain ⟨cm, ha1, ha2, ha3, ha4, _⟩ :=
        aggregateF_sound nodes rank hrank fuel memo (getId n.id) hgood
          (hfuel n (List.mem_cons_self _ _) (by simpa using hf))
      obtain ⟨M, h1, h2, h3, h4⟩ := ih cm.2 ha3 hfrest
      refine ⟨M, ?_, fun k v hv => h2 k v (ha2 k v hv), h3, ?_⟩
      · simp only [calcLoop]
        rw [if_neg hf, ha1]
        exact h1
      · intro m hm hmok
        rcases List.mem_cons.mp hm with rfl | hmem
        · exact ⟨cm.1, h2 _ _ ha4⟩
        · exact h4 m hmem hmok

/-- C1 (amended): on an acyclic node set (witnessed by a rank function that
drops from parent to non-cohort child) and with a sufficient recursion
budget, the walker terminates, and every node's entry — cohort or not —
equals the element-wise sum over its direct children, where cohort children
contribute their own `(deviceCount ?? 0, completedCount ?? 0)` and
non-cohort children contribute their recursively computed aggregate (their
own entry in the map); in particular a cohort's own entry is the sum over
its — per the invariants, absent — children, not its own counts. -/
theorem calculateAggregatedCounts_fixpoint (nodes : List Node)
    (rank : String → Nat) (fuel : Nat)
    (hrank : ∀ ch ∈ nodes, idFalsy ch.id = false → ch.type ≠ NodeType.cohort →
      ch.parentId = none ∨ rank (getId ch.id) < rank (getId ch.parentId))
    (hfuel : ∀ n ∈ nodes, idFalsy n.id = false → rank (getId n.id) < fuel) :
    ∃ M, calculateAggregatedCounts nodes fuel = some M
      ∧ ∀ n ∈ nodes, idFalsy n.id = false →
        ∃ v, lookupMemo M (getId n.id) = some v
          ∧ sumContrib M (childrenOf nodes (some (getId n.id))) 0 0
              = some (v.deviceCount, v.completedCount) := by
  obtain ⟨M, h1, _, h3, h4⟩ :=
    calcLoop_sound nodes rank fuel hrank nodes [] (by intro k v hv; cases hv) hfuel
  refine ⟨M, h1, ?_⟩
  intro n hn hok
  obtain ⟨v, hv⟩ := h4 n hn hok
  exact ⟨v, hv, h3 _ v hv⟩

/-- The spec's "Ops" example as a node set: Acme → Ops (directorate) with
cohorts C1 (10,4) and C2 (5,5). -/
def opsNodes : List Node :=
  [{ id := some "org", type := NodeType.organisation, name := "Acme" },
   { id := some "ops", type := NodeType.directorate, name := "Ops",
     parentId := some "org", status := Status.amber },
   { id := some "c1", type := NodeType.cohort, name := "C1",
     parentId := some "ops", deviceCount := some 10, completedCount := some 4 },
   { id := some "c2", type := NodeType.cohort, name := "C2",
     parentId := some "ops", deviceCount := some 5, completedCount := some 5 }]

/-- A rank witnessing acyclicity of `opsNodes`. -/
def opsRank (s : String) : Nat :=
  if s = "org" then 2 else if s = "ops" then 1 else 0

/-- C1 witness: the fixpoint theorem at the spec's "Ops" scenario. -/
theorem calculateAggregatedCounts_fixpoint_witness :
    ∃ M, calculateAggregatedCounts opsNodes 3 = some M
      ∧ ∀ n ∈ opsNodes, idFalsy n.id = false →
        ∃ v, lookupMemo M (getId n.id) = some v
          ∧ sumContrib M (childrenOf opsNodes (some (getId n.id))) 0 0
              = some (v.deviceCount, v.completedCount) :=
  calculateAggregatedCounts_fixpoint opsNodes opsRank 3 (by decide) (by decide)

/-! ## Seed Flattener (src/data/seed-parser.ts) -/

/-- `SeedDataNode` — the nested seed entry shape.  `children?: SeedDataNode[]`
is modelled as a plain list: an absent list and an empty list are
behaviourally identical in every consumer (both the parser's
`if (seedNode.children)` guard around a loop and the importer's
`children ?? []` turn absence into a no-op). -/
inductive SeedDataNode where
  | mk (type : Option NodeType) (name : String) (contact : Option String)
      (additionalContacts : Option (List String)) (headcount : Option Int)
      (status : Option Status) (children : List SeedDataNode)

/-- Seed entry field `type?`. -/
def SeedDataNode.type : SeedDataNode → Option NodeType
  | .mk t _ _ _ _ _ _ => t

/-- Seed entry field `name`. -/
def SeedDataNode.name : SeedDataNode → String
  | .mk _ n _ _ _ _ _ => n

/-- Seed entry field `contact?`. -/
def SeedDataNode.contact : SeedDataNode → Option String
  | .mk _ _ c _ _ _ _ => c

/-- Seed entry field `additionalContacts?`. -/
def SeedDataNode.additionalContacts : SeedDataNode → Option (List String)
  | .mk _ _ _ a _ _ _ => a

/-- Seed entry field `headcount?`. -/
def SeedDataNode.headcount : SeedDataNode → Option Int
  | .mk _ _ _ _ h _ _ => h

/-- Seed entry field `status?`. -/
def SeedDataNode.status : SeedDataNode → Option Status
  | .mk _ _ _ _ _ s _ => s

/-- Seed entry field `children?` (absent ≡ empty, see above). -/
def SeedDataNode.children : SeedDataNode → List SeedDataNode
  | .mk _ _ _ _ _ _ ch => ch

/-- `{ ...seedData.organisation, type: 'organisation' }` — the root spread
with its `type` overridden. -/
def SeedDataNode.withOrgType : SeedDataNode → SeedDataNode
  | .mk _ n c a h s ch => .mk (some NodeType.organisation) n c a h s ch

/-- `SeedData` — the top-level wrapper (`_meta` is never read). -/
structure SeedData where
  organisation : SeedDataNode

mutual

/-- Number of entries in a seed subtree (the entry itself plus all
descendants). -/
def seedSize : SeedDataNode → Nat
  | .mk _ _ _ _ _ _ children => 1 + seedSizeList children

/-- Total number of entries across a list of seed subtrees. -/
def seedSizeList : List SeedDataNode → Nat
  | [] => 0
  | c :: cs => seedSize c + seedSizeList cs

end

/-- The flat `Node` record emitted by `parseSeedData`.  `crypto.randomUUID()`
is modelled as a fresh-identifier supply: ids are naturals handed out by a
counter, matching the only property the source relies on (freshly generated,
unique per call). -/
structure ParsedNode where
  id : Nat
  type : NodeType
  name : String
  parentId : Option Nat
  status : Status
  contact : Option String
  additionalContacts : List String
  headcount : Option Int
  deviceType : Option DeviceType
  deviceCount : Option Int
  completedCount : Option Int
  location : Option String
  confluenceUrl : Option String
  jiraUrl : Option String
  notes : Option String
  createdAt : String
  updatedAt : String
deriving DecidableEq, Repr

/-- `createNodeFromSeed(seedNode, parentId, timestamp)` with the fresh id
made explicit. -/
def createNodeFromSeed (seedNode : SeedDataNode) (parentId : Option Nat)
    (timestamp : String) (freshId : Nat) : ParsedNode :=
  { id := freshId
    type := seedNode.type.getD NodeType.organisation
    name := seedNode.name
    parentId := parentId
    status := seedNode.status.getD Status.red
    contact := seedNode.contact
    additionalContacts := seedNode.additionalContacts.getD []
    headcount := seedNode.headcount
    deviceType := none
    deviceCount := none
    completedCount := none
    location := none
    confluenceUrl := none
    jiraUrl := none
    notes := none
    createdAt := timestamp
    updatedAt := timestamp }

/-- The parser's `while (queue.length > 0)` loop: pop the front entry,
emit its node (fresh id = the counter), push its children tagged with that
id.  The budget is the loop's termination measure (total entries enqueued
over the whole run); `parseSeedData` passes exactly enough. -/
def bfsGo (now : String) : Nat → List (SeedDataNode × Nat) → Nat → List ParsedNode
  | _, [], _ => []
  | 0, _ :: _, _ => []
  | fuel + 1, (seedNode, parentId) :: queue, ctr =>
    createNodeFromSeed seedNode (some parentId) now ctr ::
      bfsGo now fuel (queue ++ seedNode.children.map (fun ch => (ch, ctr))) (ctr + 1)

/-- `parseSeedData(seedData)`: root first (type forced to `organisation`,
`parentId = null`, id 0), then the queue loop over its children. -/
def parseSeedData (seedData : SeedData) (now : String) : List ParsedNode :=
  let rootSeed := seedData.organisation.withOrgType
  createNodeFromSeed rootSeed none now 0 ::
    bfsGo now (seedSizeList rootSeed.children)
      (rootSeed.children.map (fun ch => (ch, 0))) 1

/-- The same queue traversal, emitting the seed entries themselves; used to
state which seed entry each output position came from. -/
def bfsEntries : Nat → List SeedDataNode → List SeedDataNode
  | _, [] => []
  | 0, _ :: _ => []
  | fuel + 1, seedNode :: queue => seedNode :: bfsEntries fuel (queue ++ seedNode.children)

/-- All seed entries in the parser's emission order: the (type-overridden)
root first, then breadth-first. -/
def seedEntriesBFS (seedData : SeedData) : List SeedDataNode :=
  let rootSeed := seedData.organisation.withOrgType
  rootSeed :: bfsEntries (seedSizeList rootSeed.children) rootSeed.children

/-! ### Parser lemmas -/

/-- Total entries remaining in the queue (the loop's termination measure). -/
def queueMeasure : List (SeedDataNode × Nat) → Nat
  | [] => 0
  | (s, _) :: q => seedSize s + queueMeasure q

theorem queueMeasure_append (a b : List (SeedDataNode × Nat)) :
    queueMeasure (a ++ b) = queueMeasure a + queueMeasure b := by
  induction a with
  | nil => simp [queueMeasure]
  | cons e rest ih =>
    obtain ⟨s, p⟩ := e
    simp [queueMeasure, ih]
    omega

theorem queueMeasure_map_children (l : List SeedDataNode) (c : Nat) :
    queueMeasure (l.map (fun ch => (ch, c))) = seedSizeList l := by
  induction l with
  | nil => rfl
  | cons s rest ih => simp [queueMeasure, seedSizeList, ih]

theorem seedSize_eq (s : SeedDataNode) : seedSize s = 1 + seedSizeList s.children := by
  cases s
  rfl

theorem withOrgType_children (s : SeedDataNode) :
    s.withOrgType.children = s.children := by
  cases s
  rfl

theorem withOrgType_seedSize (s : SeedDataNode) :
    seedSize s.withOrgType = seedSize s := by
  cases s
  rfl

theorem bfsGo_sound (now : String) :
    ∀ fuel queue ctr, queueMeasure queue ≤ fuel →
      (∀ e ∈ queue, e.2 < ctr) →
      (bfsGo now fuel queue ctr).map ParsedNode.id
          = List.range' ctr (queueMeasure queue)
        ∧ ∀ r ∈ bfsGo now fuel queue ctr, ∃ p, r.parentId = some p ∧ p < r.id := by
  intro fuel
  induction fuel with
  | zero =>
    intro queue ctr hm _
    cases queue with
    | nil => exact ⟨rfl, by intro r hr; cases hr⟩
    | cons e q =>
      obtain ⟨s, p⟩ := e
      simp only [queueMeasure, seedSize_eq] at hm
      omega
  | succ f ihf =>
    intro queue ctr hm hq
    cases queue with
    | nil => exact ⟨rfl, by intro r hr; cases hr⟩
    | cons e q =>
      obtain ⟨s, p⟩ := e
      have hm' : queueMeasure (q ++ s.children.map (fun ch => (ch, ctr))) ≤ f := by
        rw [queueMeasure_append, queueMeasure_map_children]
        simp only [queueMeasure, seedSize_eq] at hm
        omega
      have hq' : ∀ e ∈ q ++ s.children.map (fun ch => (ch, ctr)), e.2 < ctr + 1 := by
        intro e he
        rcases List.mem_append.mp he with he1 | he2
        · exact Nat.lt_succ_of_lt (hq e (List.mem_cons_of_mem _ he1))
        · obtain ⟨ch, _, rfl⟩ := List.mem_map.mp he2
          exact Nat.lt_succ_self ctr
      obtain ⟨ih1, ih2⟩ := ihf (q ++ s.children.map (fun ch => (ch, ctr))) (ctr + 1) hm' hq'
      rw [queueMeasure_append, queueMeasure_map_children] at ih1
      constructor
      · have hms : queueMeasure ((s, p) :: q)
            = (queueMeasure q + seedSizeList s.children) + 1 := by
          simp only [queueMeasure, seedSize_eq]
          omega
        simp only [bfsGo, List.map_cons, ih1, hms, List.range'_succ _ _ 1]
        rfl
      · intro r hr
        simp only [bfsGo] at hr
        rcases List.mem_cons.mp hr with rfl | hmem
        · exact ⟨p, rfl, hq (s, p) (List.mem_cons_self _ _)⟩
        · exact ih2 r hmem

theorem bfsGo_device_fields (now : String) :
    ∀ fuel queue ctr r, r ∈ bfsGo now fuel queue ctr →
      r.deviceType = none ∧ r.deviceCount = none ∧ r.completedCount = none
        ∧ r.location = none ∧ r.confluenceUrl = none ∧ r.jiraUrl = none
        ∧ r.notes = none := by
  intro fuel
  induction fuel with
  | zero =>
    intro queue ctr r hr
    cases queue with
    | nil => cases hr
    | cons e q => cases hr
  | succ f ihf =>
    intro queue ctr r hr
    cases queue with
    | nil => cases hr
    | cons e q =>
      obtain ⟨s, p⟩ := e
      simp only [bfsGo] at hr
      rcases List.mem_cons.mp hr with rfl | hmem
      · exact ⟨rfl, rfl, rfl, rfl, rfl, rfl, rfl⟩
      · exact ihf _ _ r hmem

theorem bfsGo_types (now : String) :
    ∀ fuel queue ctr,
      (bfsGo now fuel queue ctr).map ParsedNode.type
        = (bfsEntries fuel (queue.map Prod.fst)).map
            (fun e => e.type.getD NodeType.organisation) := by
  intro fuel
  induction fuel with
  | zero =>
    intro queue ctr
    cases queue with
    | nil => rfl
    | cons e q => rfl
  | succ f ihf =>
    intro queue ctr
    cases queue with
    | nil => rfl
    | cons e q =>
      obtain ⟨s, p⟩ := e
      have hfst : List.map Prod.fst (q ++ s.children.map (fun ch => (ch, ctr)))
          = List.map Prod.fst q ++ s.children := by
        simp [List.map_map, Function.comp_def]
      simp only [bfsGo, bfsEntries, List.map_cons]
      rw [ihf, hfst]
      rfl

/-- The spec's seed scenario: Acme → Ops (directorate, amber) → cohorts C1, C2. -/
def seedDemo : SeedData :=
  ⟨.mk none "Acme" none none none none
    [.mk (some NodeType.directorate) "Ops" none none none (some Status.amber)
      [.mk (some NodeType.cohort) "C1" none none none none [],
       .mk (some NodeType.cohort) "C2" none none none none []]]⟩

/-- A seed with an untyped child below a directorate. -/
def seedUntypedChild : SeedData :=
  ⟨.mk none "Acme" none none none none
    [.mk (some NodeType.directorate) "Ops" none none none none
      [.mk none "X" none none none none []]]⟩

/-- C6: `parseSeedData` emits exactly one record per seed entry, with
pairwise distinct ids, exactly one record with `parentId = null`, and every
other record's parentId equal to the id of a strictly earlier record. -/
theorem parseSeedData_flat_shape (seedData : SeedData) (now : String) :
    (parseSeedData seedData now).length = seedSize seedData.organisation
    ∧ ((parseSeedData seedData now).map ParsedNode.id).Nodup
    ∧ (parseSeedData seedData now).countP (fun r => r.parentId.isNone) = 1
    ∧ ∀ i, (h : i < (parseSeedData seedData now).length) →
        ∀ p, ((parseSeedData seedData now).get ⟨i, h⟩).parentId = some p →
          ∃ j, ∃ hj : j < (parseSeedData seedData now).length,
            j < i ∧ ((parseSeedData seedData now).get ⟨j, hj⟩).id = p := by
  have hroot : seedData.organisation.withOrgType.children = seedData.organisation.children :=
    withOrgType_children _
  obtain ⟨hids, hpar⟩ := bfsGo_sound now
    (seedSizeList seedData.organisation.withOrgType.children)
    (seedData.organisation.withOrgType.children.map (fun ch => (ch, 0))) 1
    (by rw [queueMeasure_map_children])
    (by
      intro e he
      obtain ⟨ch, _, rfl⟩ := List.mem_map.mp he
      exact Nat.one_pos)
  set rest := bfsGo now (seedSizeList seedData.organisation.withOrgType.children)
    (seedData.organisation.withOrgType.children.map (fun ch => (ch, 0))) 1 with hrest
  rw [queueMeasure_map_children] at hids
  have hout : parseSeedData seedData now
      = createNodeFromSeed seedData.organisation.withOrgType none now 0 :: rest := rfl
  have hlen : (parseSeedData seedData now).length
      = seedSizeList seedData.organisation.withOrgType.children + 1 := by
    rw [hout]
    simp only [List.length_cons]
    have := congrArg List.length hids
    simpa using this
  have hmapid : (parseSeedData seedData now).map ParsedNode.id
      = List.range ((parseSeedData seedData now).length) := by
    rw [hlen, hout, List.map_cons, hids, List.range_eq_range', List.range'_succ _ _ 1]
    rfl
  have hid_at : ∀ i, (h : i < (parseSeedData seedData now).length) →
      ((parseSeedData seedData now).get ⟨i, h⟩).id = i := by
    intro i h
    have h1 : ((parseSeedData seedData now).map ParsedNode.id).get? i
        = some (((parseSeedData seedData now).get ⟨i, h⟩).id) := by
      rw [List.get?_map, List.get?_eq_get h]
      rfl
    rw [hmapid, List.get?_range (by simpa using h)] at h1
    exact (Option.some.injEq _ _).mp h1.symm
  refine ⟨?_, ?_, ?_, ?_⟩
  · rw [hlen, seedSize_eq, hroot]
    omega
  · rw [hmapid]
    exact List.nodup_range _
  · rw [hout, List.countP_cons]
    have hz : rest.countP (fun r => r.parentId.isNone) = 0 := by
      rw [List.countP_eq_zero]
      intro r hr
      obtain ⟨p, hp, _⟩ := hpar r hr
      simp [hp]
    simp [hz, createNodeFromSeed]
  · intro i h p hp
    cases i with
    | zero =>
      have : ((parseSeedData seedData now).get ⟨0, h⟩).parentId = none := rfl
      rw [this] at hp
      cases hp
    | succ i' =>
      have h2 : i' + 1 < rest.length + 1 := by
        have h3 := h
        rw [hout] at h3
        simpa using h3
      have hgeteq : (parseSeedData seedData now).get ⟨i' + 1, h⟩
          = rest.get ⟨i', by omega⟩ := rfl
      have hmem : ((parseSeedData seedData now).get ⟨i' + 1, h⟩) ∈ rest := by
        rw [hgeteq]
        exact List.get_mem _ _ _
      obtain ⟨p', hp', hlt⟩ := hpar _ hmem
      rw [hp'] at hp
      obtain rfl : p' = p := Option.some.inj hp
      have hidv := hid_at (i' + 1) h
      rw [hidv] at hlt
      refine ⟨p', Nat.lt_trans hlt h, hlt, ?_⟩
      exact hid_at p' (Nat.lt_trans hlt h)

/-- C6 witness: the shape theorem's no-forward-reference clause at the demo
seed, output position 2 (cohort C1, whose parent is record 1, "Ops"). -/
theorem parseSeedData_flat_shape_witness :
    ∃ j, ∃ hj : j < (parseSeedData seedDemo "t").length,
      j < 2 ∧ ((parseSeedData seedDemo "t").get ⟨j, hj⟩).id = 1 :=
  (parseSeedData_flat_shape seedDemo "t").2.2.2 2 (by decide) 1 (by decide)

/-- C9: every record emitted by `parseSeedData` has null `deviceType`,
`deviceCount`, `completedCount`, `location`, `confluenceUrl`, `jiraUrl` and
`notes` — the seed shape carries no device fields. -/
theorem parseSeedData_null_device_fields (seedData : SeedData) (now : String) :
    ∀ r ∈ parseSeedData seedData now,
      r.deviceType = none ∧ r.deviceCount = none ∧ r.completedCount = none
        ∧ r.location = none ∧ r.confluenceUrl = none ∧ r.jiraUrl = none
        ∧ r.notes = none := by
  intro r hr
  rcases List.mem_cons.mp hr with rfl | hmem
  · exact ⟨rfl, rfl, rfl, rfl, rfl, rfl, rfl⟩
  · exact bfsGo_device_fields now _ _ _ r hmem

/-- C9 witness: the device-fields theorem at the demo seed's first record. -/
theorem parseSeedData_null_device_fields_witness :
    ((parseSeedData seedDemo "t").get ⟨0, by decide⟩).deviceType = none
    ∧ ((parseSeedData seedDemo "t").get ⟨0, by decide⟩).deviceCount = none :=
  ⟨(parseSeedData_null_device_fields seedDemo "t" _ (List.get_mem _ _ _)).1,
   (parseSeedData_null_device_fields seedDemo "t" _ (List.get_mem _ _ _)).2.1⟩

/-- C10: each emitted record's type is its seed entry's `type ?? 'organisation'`
(entries taken in the parser's emission order, the root's type being forced
to `organisation`); in particular an untyped child below a directorate comes
out as an extra `organisation` node, not as the parent's child level. -/
theorem parseSeedData_type_defaults (seedData : SeedData) (now : String) :
    ((parseSeedData seedData now).map ParsedNode.type
        = (seedEntriesBFS seedData).map (fun e => e.type.getD NodeType.organisation))
    ∧ (parseSeedData seedUntypedChild now).map ParsedNode.type
        = [NodeType.organisation, NodeType.directorate, NodeType.organisation] := by
  constructor
  · simp only [parseSeedData, seedEntriesBFS, List.map_cons]
    rw [bfsGo_types now _ _ 1]
    have hfst : List.map Prod.fst
        (seedData.organisation.withOrgType.children.map (fun ch => (ch, 0)))
          = seedData.organisation.withOrgType.children := by
      simp [List.map_map, Function.comp_def]
    rw [hfst]
    rfl
  · rfl

/-! ## Import Reconciler (unnamed import script: `importSeedData`,
`processChildren`, `findNodeByName`, `findChildByName`) -/

/-- A record held by the storage collaborator (the fields the importer
writes and reads back). -/
structure StoreRec where
  id : Nat
  type : Option NodeType
  name : String
  parentId : Option Nat
  status : Status
  contact : Option String
  additionalContacts : List String
  headcount : Option Int
deriving DecidableEq, Repr

/-- The storage collaborator: records in insertion order, a fresh-id
counter, and the set of names whose creation the store rejects (a
deterministic model of per-write store errors). -/
structure Store where
  recs : List StoreRec
  nextId : Nat
  failNames : List String
deriving DecidableEq, Repr

/-- The importer's result accumulator. -/
structure ImportResult where
  success : Bool
  nodesCreated : Nat
  nodesSkipped : Nat
  errors : List String
deriving DecidableEq, Repr

/-- `findNodeByName(client, type, name)` — list records of the given type,
then `.find(n => n.name === name)`. -/
def findNodeByName (store : Store) (t : NodeType) (name : String) : Option Nat :=
  ((store.recs.filter (fun r => r.type == some t)).find?
      (fun r => r.name == name)).map StoreRec.id

/-- `findChildByName(client, parentId, name)` — list records under the given
parent, then `.find(n => n.name === name)`. -/
def findChildByName (store : Store) (parentId : Nat) (name : String) : Option Nat :=
  ((store.recs.filter (fun r => r.parentId == some parentId)).find?
      (fun r => r.name == name)).map StoreRec.id

/-- `client.models.Node.create(...)` — rejects names in `failNames`
(returning `errors`, store untouched), otherwise appends a record under a
fresh id. -/
def createNode (store : Store) (t : Option NodeType) (name : String)
    (parentId : Option Nat) (status : Status) (contact : Option String)
    (additionalContacts : List String) (headcount : Option Int) :
    Option Nat × Store :=
  if name ∈ store.failNames then (none, store)
  else
    (some store.nextId,
      { store with
        recs := store.recs ++
          [{ id := store.nextId, type := t, name := name, parentId := parentId,
             status := status, contact := contact,
             additionalContacts := additionalContacts, headcount := headcount }]
        nextId := store.nextId + 1 })

/-- `processChildren(client, children, parentId, idMap, result)` with the
store threaded explicitly and a recursion budget (the source recurses on
the seed structure; `importSeedData` passes a budget covering the whole
walk).  The `idMap` is written but never read in the source and is omitted.
Found → skip and recurse; create error → record error and continue with the
remaining siblings (the failed entry's subtree is skipped); created →
recurse using the new id. -/
def processChildrenF : Nat → Store → List SeedDataNode → Nat → ImportResult →
    ImportResult × Store
  | _, store, [], _, result => (result, store)
  | 0, store, _ :: _, _, result => (result, store)
  | fuel + 1, store, child :: rest, parentId, result =>
    match findChildByName store parentId child.name with
    | some cid =>
      let r1 := processChildrenF fuel store child.children cid
        { result with nodesSkipped := result.nodesSkipped + 1 }
      processChildrenF fuel r1.2 rest parentId r1.1
    | none =>
      match createNode store child.type child.name (some parentId)
          (child.status.getD Status.red) child.contact
          (child.additionalContacts.getD []) child.headcount with
      | (none, store') =>
        processChildrenF fuel store' rest parentId
          { result with errors := result.errors ++ ["Failed to create " ++ child.name] }
      | (some nid, store') =>
        let r1 := processChildrenF fuel store' child.children nid
          { result with nodesCreated := result.nodesCreated + 1 }
        processChildrenF fuel r1.2 rest parentId r1.1

/-- `importSeedData(client, seedData)`: resolve or create the root, then
walk the children; root creation failure is fatal (`success = false`,
return at once). -/
def importSeedData (store : Store) (seedData : SeedData) : ImportResult × Store :=
  let fuel := seedSizeList seedData.organisation.children
  match findNodeByName store NodeType.organisation seedData.organisation.name with
  | some orgId =>
    processChildrenF fuel store seedData.organisation.children orgId
      { success := true, nodesCreated := 0, nodesSkipped := 1, errors := [] }
  | none =>
    match createNode store (some NodeType.organisation) seedData.organisation.name
        none (seedData.organisation.status.getD Status.red)
        seedData.organisation.contact
        (seedData.organisation.additionalContacts.getD [])
        seedData.organisation.headcount with
    | (none, store') =>
      ({ success := false, nodesCreated := 0, nodesSkipped := 0,
         errors := ["Failed to create organisation"] }, store')
    | (some orgId, store') =>
      processChildrenF fuel store' seedData.organisation.children orgId
        { success := true, nodesCreated := 1, nodesSkipped := 0, errors := [] }

/-- The store with nothing in it and no failing writes. -/
def emptyStore : Store := { recs := [], nextId := 0, failNames := [] }

/-! ### Import lemmas -/

theorem findChildByName_append (s s' : Store) (extra : List StoreRec)
    (hext : s'.recs = s.recs ++ extra) (pid : Nat) (name : String) (cid : Nat)
    (h : findChildByName s pid name = some cid) :
    findChildByName s' pid name = some cid := by
  unfold findChildByName at h ⊢
  rw [hext, List.filter_append, List.find?_append]
  cases hf : (s.recs.filter (fun r => r.parentId == some pid)).find?
      (fun r => r.name == name) with
  | none => rw [hf] at h; cases h
  | some r =>
    rw [hf] at h
    simp only [Option.or]
    exact h

theorem findChildByName_append_new (s s' : Store) (rec : StoreRec)
    (hext : s'.recs = s.recs ++ [rec]) (pid : Nat) (name : String)
    (hnone : findChildByName s pid name = none)
    (hpid : rec.parentId = some pid) (hname : rec.name = name) :
    findChildByName s' pid name = some rec.id := by
  unfold findChildByName at hnone ⊢
  rw [hext, List.filter_append, List.find?_append]
  have h1 : (s.recs.filter (fun r => r.parentId == some pid)).find?
      (fun r => r.name == name) = none := by
    cases hf : (s.recs.filter (fun r => r.parentId == some pid)).find?
        (fun r => r.name == name) with
    | none => rfl
    | some r => rw [hf] at hnone; cases hnone
  rw [h1]
  simp [List.filter, hpid, hname, List.find?]

theorem findNodeByName_head (s : Store) (rec : StoreRec) (extra : List StoreRec)
    (hext : s.recs = rec :: extra) (t : NodeType) (name : String)
    (htype : rec.type = some t) (hname : rec.name = name) :
    findNodeByName s t name = some rec.id := by
  unfold findNodeByName
  rw [hext]
  simp [List.filter, htype, hname, List.find?]

/-- Every seed entry of the list is resolvable in the store: a child of
`pid` with the entry's name exists, and the entry's own children are in turn
resolvable under the id that lookup returns. -/
def covered (store : Store) : List SeedDataNode → Nat → Prop
  | [], _ => True
  | ch :: rest, pid =>
    (∃ cid, findChildByName store pid ch.name = some cid
      ∧ covered store ch.children cid)
    ∧ covered store rest pid
termination_by l _ => seedSizeList l
decreasing_by
  all_goals simp [seedSizeList, seedSize_eq]
  all_goals omega

theorem covered_mono (s s' : Store) (extra : List StoreRec)
    (hext : s'.recs = s.recs ++ extra) :
    ∀ n l pid, seedSizeList l ≤ n → covered s l pid → covered s' l pid := by
  intro n
  induction n with
  | zero =>
    intro l pid hm hc
    cases l with
    | nil => simp [covered]
    | cons ch rest =>
      simp only [seedSizeList, seedSize_eq] at hm
      omega
  | succ n ihn =>
    intro l pid hm hc
    cases l with
    | nil => simp [covered]
    | cons ch rest =>
      simp only [seedSizeList, seedSize_eq] at hm
      simp only [covered] at hc ⊢
      obtain ⟨⟨cid, hfind, hcovch⟩, hcovrest⟩ := hc
      exact ⟨⟨cid, findChildByName_append s s' extra hext pid ch.name cid hfind,
          ihn ch.children cid (by omega) hcovch⟩,
        ihn rest pid (by omega) hcovrest⟩

theorem processChildrenF_run1 :
    ∀ fuel (children : List SeedDataNode) (pid : Nat) (store : Store)
      (res : ImportResult),
      store.failNames = [] →
      seedSizeList children ≤ fuel →
      ∃ extra,
        (processChildrenF fuel store children pid res).2.recs = store.recs ++ extra
        ∧ (processChildrenF fuel store children pid res).2.failNames = []
        ∧ covered (processChildrenF fuel store children pid res).2 children pid
        ∧ (processChildrenF fuel store children pid res).1.success = res.success
        ∧ (processChildrenF fuel store children pid res).1.errors = res.errors := by
  intro fuel
  induction fuel with
  | zero =>
    intro children pid store res hfn hm
    cases children with
    | nil =>
      exact ⟨[], by simp [processChildrenF], by simp [processChildrenF, hfn],
        by simp [processChildrenF, covered], by simp [processChildrenF],
        by simp [processChildrenF]⟩
    | cons ch rest =>
      simp only [seedSizeList, seedSize_eq] at hm
      omega
  | succ f ihf =>
    intro children pid store res hfn hm
    cases children with
    | nil =>
      exact ⟨[], by simp [processChildrenF], by simp [processChildrenF, hfn],
        by simp [processChildrenF, covered], by simp [processChildrenF],
        by simp [processChildrenF]⟩
    | cons ch rest =>
      simp only [seedSizeList, seedSize_eq] at hm
      cases hfind : findChildByName store pid ch.name with
      | some cid =>
        obtain ⟨e1, h1r, h1f, h1c, h1s, h1e⟩ := ihf ch.children cid store
          { res with nodesSkipped := res.nodesSkipped + 1 } hfn (by omega)
        obtain ⟨e2, h2r, h2f, h2c, h2s, h2e⟩ := ihf rest pid
          (processChildrenF f store ch.children cid
            { res with nodesSkipped := res.nodesSkipped + 1 }).2
          (processChildrenF f store ch.children cid
            { res with nodesSkipped := res.nodesSkipped + 1 }).1
          h1f (by omega)
        have hrecs : (processChildrenF (f + 1) store (ch :: rest) pid res).2.recs
            = store.recs ++ (e1 ++ e2) := by
          simp only [processChildrenF, hfind]
          rw [h2r, h1r, List.append_assoc]
        refine ⟨e1 ++ e2, hrecs, ?_, ?_, ?_, ?_⟩
        · simp only [processChildrenF, hfind]
          exact h2f
        · simp only [processChildrenF, hfind]
          simp only [covered]
          refine ⟨⟨cid, ?_, ?_⟩, h2c⟩
          · refine findChildByName_append store _ (e1 ++ e2) ?_ pid ch.name cid hfind
            have := hrecs
            simp only [processChildrenF, hfind] at this
            exact this
          · refine covered_mono _ _ e2 h2r (seedSizeList ch.children)
              ch.children cid le_rfl h1c
        · simp only [processChildrenF, hfind]
          rw [h2s, h1s]
        · simp only [processChildrenF, hfind]
          rw [h2e, h1e]
      | none =>
        have hnotmem : ch.name ∉ store.failNames := by
          rw [hfn]
          exact List.not_mem_nil _
        have hcreate : createNode store ch.type ch.name (some pid)
            (ch.status.getD Status.red) ch.contact
            (ch.additionalContacts.getD []) ch.headcount
            = (some store.nextId,
               { store with
                 recs := store.recs ++
                   [{ id := store.nextId, type := ch.type, name := ch.name,
                      parentId := some pid, status := ch.status.getD Status.red,
                      contact := ch.contact,
                      additionalContacts := ch.additionalContacts.getD [],
                      headcount := ch.headcount }]
                 nextId := store.nextId + 1 }) := by
          unfold createNode
          rw [if_neg hnotmem]
        set newRec : StoreRec :=
          { id := store.nextId, type := ch.type, name := ch.name,
            parentId := some pid, status := ch.status.getD Status.red,
            contact := ch.contact,
            additionalContacts := ch.additionalContacts.getD [],
            headcount := ch.headcount } with hnewRec
        set storeC : Store :=
          { store with recs := store.recs ++ [newRec], nextId := store.nextId + 1 }
          with hstoreC
        have hCfn : storeC.failNames = [] := hfn
        obtain ⟨e1, h1r, h1f, h1c, h1s, h1e⟩ := ihf ch.children store.nextId storeC
          { res with nodesCreated := res.nodesCreated + 1 } hCfn (by omega)
        obtain ⟨e2, h2r, h2f, h2c, h2s, h2e⟩ := ihf rest pid
          (processChildrenF f storeC ch.children store.nextId
            { res with nodesCreated := res.nodesCreated + 1 }).2
          (processChildrenF f storeC ch.children store.nextId
            { res with nodesCreated := res.nodesCreated + 1 }).1
          h1f (by omega)
        have hrecs : (processChildrenF (f + 1) store (ch :: rest) pid res).2.recs
            = store.recs ++ ([newRec] ++ (e1 ++ e2)) := by
          simp only [processChildrenF, hfind, hcreate]
          rw [h2r, h1r]
          simp only [hstoreC]
          rw [List.append_assoc, List.append_assoc]
        refine ⟨[newRec] ++ (e1 ++ e2), hrecs, ?_, ?_, ?_, ?_⟩
        · simp only [processChildrenF, hfind, hcreate]
          exact h2f
        · simp only [processChildrenF, hfind, hcreate]
          simp only [covered]
          refine ⟨⟨store.nextId, ?_, ?_⟩, h2c⟩
          · have hstep : findChildByName storeC pid ch.name = some newRec.id :=
              findChildByName_append_new store storeC newRec rfl pid ch.name
                hfind rfl rfl
            have hfinal : (processChildrenF f
                (processChildrenF f storeC ch.children store.nextId
                  { res with nodesCreated := res.nodesCreated + 1 }).2
                rest pid
                (processChildrenF f storeC ch.children store.nextId
                  { res with nodesCreated := res.nodesCreated + 1 }).1).2.recs
                = storeC.recs ++ (e1 ++ e2) := by
              rw [h2r, h1r, List.append_assoc]
            exact findChildByName_append storeC _ (e1 ++ e2) hfinal pid ch.name
              store.nextId hstep
          · refine covered_mono _ _ e2 h2r (seedSizeList ch.children)
              ch.children store.nextId le_rfl h1c
        · simp only [processChildrenF, hfind, hcreate]
          rw [h2s, h1s]
        · simp only [processChildrenF, hfind, hcreate]
          rw [h2e, h1e]

theorem processChildrenF_run2 :
    ∀ fuel (children : List SeedDataNode) (pid : Nat) (store : Store)
      (res : ImportResult),
      seedSizeList children ≤ fuel →
      covered store children pid →
      processChildrenF fuel store children pid res
        = ({ res with nodesSkipped := res.nodesSkipped + seedSizeList children },
           store) := by
  intro fuel
  induction fuel with
  | zero =>
    intro children pid store res hm hc
    cases children with
    | nil => simp [processChildrenF, seedSizeList]
    | cons ch rest =>
      simp only [seedSizeList, seedSize_eq] at hm
      omega
  | succ f ihf =>
    intro children pid store res hm hc
    cases children with
    | nil => simp [processChildrenF, seedSizeList]
    | cons ch rest =>
      simp only [seedSizeList, seedSize_eq] at hm
      simp only [covered] at hc
      obtain ⟨⟨cid, hfind, hcovch⟩, hcovrest⟩ := hc
      simp only [processChildrenF, hfind]
      rw [ihf ch.children cid store _ (by omega) hcovch]
      rw [ihf rest pid store _ (by omega) hcovrest]
      have harith : res.nodesSkipped + 1 + seedSizeList ch.children
          + seedSizeList rest
          = res.nodesSkipped + (seedSize ch + seedSizeList rest) := by
        rw [seedSize_eq]
        omega
      simp only [seedSizeList]
      rw [Prod.mk.injEq]
      exact ⟨by rw [← harith], rfl⟩

/-- The root record a first run against the empty store creates. -/
def orgRecOf (seedData : SeedData) : StoreRec :=
  { id := 0, type := some NodeType.organisation,
    name := seedData.organisation.name, parentId := none,
    status := seedData.organisation.status.getD Status.red,
    contact := seedData.organisation.contact,
    additionalContacts := seedData.organisation.additionalContacts.getD [],
    headcount := seedData.organisation.headcount }

/-- The store right after that first root creation. -/
def store1Of (seedData : SeedData) : Store :=
  { recs := [orgRecOf seedData], nextId := 1, failNames := [] }

/-- C4: running `importSeedData` a second time against the store a prior
successful run (from the empty, never-failing store) fully populated
creates nothing: the second call reports `nodesCreated = 0` and
`nodesSkipped` equal to the total number of seed entries, and leaves the
store untouched; every existence check is answered by the threaded store. -/
theorem importSeedData_idempotent (seedData : SeedData) :
    (importSeedData (importSeedData emptyStore seedData).2 seedData).1.nodesCreated = 0
    ∧ (importSeedData (importSeedData emptyStore seedData).2 seedData).1.nodesSkipped
        = seedSize seedData.organisation
    ∧ (importSeedData emptyStore seedData).1.success = true
    ∧ (importSeedData emptyStore seedData).1.errors = []
    ∧ (importSeedData (importSeedData emptyStore seedData).2 seedData).2
        = (importSeedData emptyStore seedData).2 := by
  have hfind1 : findNodeByName emptyStore NodeType.organisation
      seedData.organisation.name = none := rfl
  have horg : createNode emptyStore (some NodeType.organisation)
      seedData.organisation.name none
      (seedData.organisation.status.getD Status.red)
      seedData.organisation.contact
      (seedData.organisation.additionalContacts.getD [])
      seedData.organisation.headcount
      = (some 0, store1Of seedData) := by
    simp [createNode, emptyStore, store1Of, orgRecOf]
  have himp1 : importSeedData emptyStore seedData
      = processChildrenF (seedSizeList seedData.organisation.children)
          (store1Of seedData) seedData.organisation.children 0
          { success := true, nodesCreated := 1, nodesSkipped := 0, errors := [] } := by
    simp only [importSeedData, hfind1, horg]
  obtain ⟨e, hr, hf, hcov, hs, he⟩ := processChildrenF_run1
    (seedSizeList seedData.organisation.children)
    seedData.organisation.children 0 (store1Of seedData)
    { success := true, nodesCreated := 1, nodesSkipped := 0, errors := [] }
    rfl le_rfl
  have hrecsS : (processChildrenF (seedSizeList seedData.organisation.children)
      (store1Of seedData) seedData.organisation.children 0
      { success := true, nodesCreated := 1, nodesSkipped := 0,
        errors := [] }).2.recs = orgRecOf seedData :: e := hr
  have hfind2 : findNodeByName (processChildrenF
      (seedSizeList seedData.organisation.children)
      (store1Of seedData) seedData.organisation.children 0
      { success := true, nodesCreated := 1, nodesSkipped := 0,
        errors := [] }).2 NodeType.organisation seedData.organisation.name
      = some 0 :=
    findNodeByName_head _ (orgRecOf seedData) e hrecsS NodeType.organisation
      seedData.organisation.name rfl rfl
  have himp2 : importSeedData (processChildrenF
      (seedSizeList seedData.organisation.children)
      (store1Of seedData) seedData.organisation.children 0
      { success := true, nodesCreated := 1, nodesSkipped := 0,
        errors := [] }).2 seedData
      = processChildrenF (seedSizeList seedData.organisation.children)
          (processChildrenF (seedSizeList seedData.organisation.children)
            (store1Of seedData) seedData.organisation.children 0
            { success := true, nodesCreated := 1, nodesSkipped := 0,
              errors := [] }).2
          seedData.organisation.children 0
          { success := true, nodesCreated := 0, nodesSkipped := 1, errors := [] } := by
    simp only [importSeedData, hfind2]
  have hrun2 := processChildrenF_run2
    (seedSizeList seedData.organisation.children)
    seedData.organisation.children 0
    (processChildrenF (seedSizeList seedData.organisation.children)
      (store1Of seedData) seedData.organisation.children 0
      { success := true, nodesCreated := 1, nodesSkipped := 0, errors := [] }).2
    { success := true, nodesCreated := 0, nodesSkipped := 1, errors := [] }
    le_rfl hcov
  refine ⟨?_, ?_, ?_, ?_, ?_⟩
  · rw [himp1, himp2, hrun2]
  · rw [himp1, himp2, hrun2, seedSize_eq]
  · rw [himp1]
    exact hs
  · rw [himp1]
    exact he
  · rw [himp1, himp2, hrun2]

/-- C5: a store error creating the root is fatal — `success = false`,
counters untouched, immediate return with the store unchanged and no child
processed — whereas a store error creating a non-root child only appends to
`errors` and continues with the remaining siblings (and their subtrees),
and the child walk never writes `success` at all. -/
theorem importSeedData_error_scoping :
    (∀ store seedData,
      findNodeByName store NodeType.organisation seedData.organisation.name = none →
      seedData.organisation.name ∈ store.failNames →
      importSeedData store seedData
        = ({ success := false, nodesCreated := 0, nodesSkipped := 0,
             errors := ["Failed to create organisation"] }, store))
    ∧ (∀ fuel store (child : SeedDataNode) rest pid res,
      findChildByName store pid child.name = none →
      child.name ∈ store.failNames →
      processChildrenF (fuel + 1) store (child :: rest) pid res
        = processChildrenF fuel store rest pid
            { res with errors := res.errors ++ ["Failed to create " ++ child.name] })
    ∧ (∀ fuel children pid store res,
      (processChildrenF fuel store children pid res).1.success = res.success) := by
  refine ⟨?_, ?_, ?_⟩
  · intro store seedData hfind hmem
    simp only [importSeedData, hfind, createNode, if_pos hmem]
  · intro fuel store child rest pid res hfind hmem
    simp only [processChildrenF, hfind, createNode, if_pos hmem]
  · intro fuel
    induction fuel with
    | zero =>
      intro children pid store res
      cases children with
      | nil => rfl
      | cons ch rest => rfl
    | succ f ihf =>
      intro children pid store res
      cases children with
      | nil => rfl
      | cons ch rest =>
        cases hfind : findChildByName store pid ch.name with
        | some cid =>
          simp only [processChildrenF, hfind]
          rw [ihf, ihf]
        | none =>
          cases hc : createNode store ch.type ch.name (some pid)
              (ch.status.getD Status.red) ch.contact
              (ch.additionalContacts.getD []) ch.headcount with
          | mk o store' =>
            cases o with
            | none =>
              simp only [processChildrenF, hfind, hc]
              rw [ihf]
            | some nid =>
              simp only [processChildrenF, hfind, hc]
              rw [ihf, ihf]

/-- C5 witness: the root-fatal clause at a store rejecting "Acme", and the
child-continue clause at a store rejecting "Ops". -/
theorem importSeedData_error_scoping_witness :
    (importSeedData { recs := [], nextId := 0, failNames := ["Acme"] } seedDemo
      = ({ success := false, nodesCreated := 0, nodesSkipped := 0,
           errors := ["Failed to create organisation"] },
         { recs := [], nextId := 0, failNames := ["Acme"] }))
    ∧ (processChildrenF 3 { recs := [], nextId := 7, failNames := ["Ops"] }
        seedDemo.organisation.children 0
        { success := true, nodesCreated := 1, nodesSkipped := 0, errors := [] }
      = processChildrenF 2 { recs := [], nextId := 7, failNames := ["Ops"] } [] 0
          { success := true, nodesCreated := 1, nodesSkipped := 0,
            errors := ["Failed to create Ops"] }) :=
  ⟨importSeedData_error_scoping.1 { recs := [], nextId := 0, failNames := ["Acme"] }
      seedDemo rfl (by decide),
   importSeedData_error_scoping.2.1 2 { recs := [], nextId := 7, failNames := ["Ops"] }
      (SeedDataNode.mk (some NodeType.directorate) "Ops" none none none
        (some Status.amber)
        [SeedDataNode.mk (some NodeType.cohort) "C1" none none none none [],
         SeedDataNode.mk (some NodeType.cohort) "C2" none none none none []])
      [] 0
      { success := true, nodesCreated := 1, nodesSkipped := 0, errors := [] }
      rfl (by decide)⟩

end OpStack
